import Mathlib

/-!
Shallow embedding of `src/desktop_organizer.py` (class `DesktopOrganizer`).

The program works on the user's desktop directory.  We model the relevant
slice of the filesystem explicitly:

* `FS.top` is the list of entries directly under the desktop root, in
  `os.listdir` order, each entry a name together with a flag that is `true`
  for directories;
* `FS.sub` maps the name of a top-level folder to the list of entry names
  inside it (one level deep is all the program ever touches).

External effects that the program merely consumes are supplied by an
environment `Env`:

* `Env.plan` stands for `self.analyze_files` as called by `organize`
  (the LLM answer, or the extension fallback — its output is an arbitrary
  category → file-names mapping, which is exactly what `json.loads` of the
  model reply can produce);
* `Env.moveFail` is the OS outcome of `shutil.move` for a given source
  name (`none` = the move succeeds, `some m` = it raises with message `m`);
* `Env.clock` is the value `datetime.now()` reads.

Machine strings are Lean `String`s (Python `str.lower`/`startswith`/`sorted`
agree with the Lean counterparts on the ASCII data involved).  Entry names
are plain `listdir` names (no path separators), so `os.path.splitext` is
embedded for separator-free strings.
-/

/-- Python `name.startswith('.')`: whether the first character is a dot. -/
def startsWithDot (s : String) : Bool :=
  match s.data with
  | [] => false
  | c :: _ => c == '.'

/-- ASCII lower-casing of one character (Python `str.lower` restricted to
the ASCII range, which covers every extension the program compares). -/
def charLower (c : Char) : Char :=
  if 65 ≤ c.toNat ∧ c.toNat ≤ 90 then Char.ofNat (c.toNat + 32) else c

/-- Python `s.lower()` on ASCII data. -/
def strToLower (s : String) : String := String.mk (s.data.map charLower)

/-- Code-point lexicographic order on character lists — the comparison
Python `sorted` uses on strings. -/
def charListLe : List Char → List Char → Bool
  | [], _ => true
  | _ :: _, [] => false
  | a :: as, b :: bs =>
    if a.toNat < b.toNat then true
    else if b.toNat < a.toNat then false
    else charListLe as bs

/-- Python's string comparison `a <= b`. -/
def strLe (a b : String) : Bool := charListLe a.data b.data

/-- Embedding of `os.path.splitext` for a plain file name (no directory
separators): split at the last dot, except that a name whose characters
before the last dot are all dots (e.g. `.bashrc`) is not split. -/
def splitext (s : String) : String × String :=
  let cs := s.data
  if '.' ∈ cs then
    let tail := cs.reverse.takeWhile (fun c => c ≠ '.')
    let k := cs.length - tail.length - 1
    if (cs.take k).all (fun c => c = '.') then (s, "")
    else (String.mk (cs.take k), String.mk (cs.drop k))
  else (s, "")

/-- Python `dict.setdefault(k, []).append(v)` on an insertion-ordered
association list. -/
def setdefaultAppend (m : List (String × List String)) (k v : String) :
    List (String × List String) :=
  match m with
  | [] => [(k, [v])]
  | p :: rest =>
    if p.1 = k then (p.1, p.2 ++ [v]) :: rest
    else p :: setdefaultAppend rest k v

/-- The extension table of `analyze_files` (line 116-123 of the source). -/
def extTable : List (String × String) :=
  [(".jpg", "Images"), (".jpeg", "Images"), (".png", "Images"), (".gif", "Images"),
   (".pdf", "Documents"), (".doc", "Documents"), (".docx", "Documents"), (".txt", "Documents"),
   (".mp4", "Videos"), (".mov", "Videos"), (".avi", "Videos"),
   (".mp3", "Audio"), (".wav", "Audio"), (".m4a", "Audio"),
   (".zip", "Archives"), (".rar", "Archives"), (".7z", "Archives"),
   (".py", "Code"), (".js", "Code"), (".html", "Code"), (".css", "Code")]

/-- The fallback branch of `analyze_files` (source lines 110-126): for each
file take the lower-cased extension, replace an empty extension by the
string `No Extension`, look that key up in `extTable` with default
`Other`, and append the file under the resulting category. -/
def analyzeFilesFallback (files : List String) : List (String × List String) :=
  files.foldl
    (fun m file =>
      let ext0 := strToLower (splitext file).2
      let ext := if ext0 = "" then "No Extension" else ext0
      let category := (extTable.lookup ext).getD "Other"
      setdefaultAppend m category file)
    []

/-- A timestamp as read from `datetime.now()`. -/
structure DateTime where
  year : Nat
  month : Nat
  day : Nat
  hour : Nat
  minute : Nat
  second : Nat
deriving DecidableEq, Repr

/-- Decimal digit character of `n mod 10`. -/
def digitChar10 (n : Nat) : Char := Char.ofNat (48 + n % 10)

/-- Embedding of `datetime.strftime("%Y%m%d_%H%M%S")`, faithful for years
1000-9999 and in-range calendar fields (each numeric field zero-padded). -/
def strftimeTS (t : DateTime) : String :=
  String.mk
    [digitChar10 (t.year / 1000), digitChar10 (t.year / 100),
     digitChar10 (t.year / 10), digitChar10 t.year,
     digitChar10 (t.month / 10), digitChar10 t.month,
     digitChar10 (t.day / 10), digitChar10 t.day, '_',
     digitChar10 (t.hour / 10), digitChar10 t.hour,
     digitChar10 (t.minute / 10), digitChar10 t.minute,
     digitChar10 (t.second / 10), digitChar10 t.second]

/-- The renamed destination name on a collision (source lines 179-181):
the timestamp is inserted between base name and extension. -/
def tsRename (clock : DateTime) (file : String) : String :=
  (splitext file).1 ++ "_" ++ strftimeTS clock ++ (splitext file).2

/-- The modelled filesystem slice: desktop-root entries (name, is-directory)
in `os.listdir` order, and the entry names inside each top-level folder. -/
structure FS where
  top : List (String × Bool)
  sub : List (String × List String)
deriving DecidableEq, Repr

/-- Remove the (first) top-level entry with the given name. -/
def eraseEntry : List (String × Bool) → String → List (String × Bool)
  | [], _ => []
  | p :: rest, n => if p.1 = n then rest else p :: eraseEntry rest n

/-- Remove a folder-contents record by key. -/
def eraseSub : List (String × List String) → String → List (String × List String)
  | [], _ => []
  | p :: rest, n => if p.1 = n then rest else p :: eraseSub rest n

/-- Append a name to a list unless already present (a move that lands on an
existing destination path overwrites it, leaving the set of names fixed). -/
def appendNew (l : List String) (n : String) : List String :=
  if n ∈ l then l else l ++ [n]

/-- Add a name into a folder's contents. -/
def addName (m : List (String × List String)) (k v : String) :
    List (String × List String) :=
  match m with
  | [] => [(k, [v])]
  | p :: rest =>
    if p.1 = k then (p.1, appendNew p.2 v) :: rest
    else p :: addName rest k v

/-- Embedding of `os.makedirs(desktop/c, exist_ok=True)`: no-op when `c` is
an existing directory, raises `FileExistsError` when `c` exists as a file,
creates the directory otherwise.  (The message text of the OS exception is
abstracted; the program only passes it through.) -/
def FS.makedirs (fs : FS) (c : String) : Except String FS :=
  match fs.top.lookup c with
  | some true => .ok fs
  | some false => .error ("File exists: " ++ c)
  | none => .ok { fs with top := fs.top ++ [(c, true)] }

/-- Whether `os.path.exists(desktop/c/f)` holds for a tracked folder `c`. -/
def FS.folderContains (fs : FS) (c f : String) : Bool :=
  ((fs.sub.lookup c).getD []).contains f

/-- Remove a top-level entry (the source side of `shutil.move`); a moved
directory takes its contents along, so its contents record is dropped. -/
def FS.moveOut (fs : FS) (f : String) : FS :=
  { top := eraseEntry fs.top f, sub := eraseSub fs.sub f }

/-- Place a name inside a top-level folder (the destination side of
`shutil.move`). -/
def FS.addToFolder (fs : FS) (c n : String) : FS :=
  { fs with sub := addName fs.sub c n }

/-- External inputs of one `organize` run: the `analyze_files` answer for a
given file list, the OS outcome of `shutil.move` per source name, and the
wall clock. -/
structure Env where
  plan : List String → List (String × List String)
  moveFail : String → Option String
  clock : DateTime

/-- The mutable loop state of `organize`'s move phase: the filesystem plus
the accumulators `moved_files` and `skipped_files`. -/
structure LoopState where
  fs : FS
  moved : List (String × List String)
  skipped : List String
deriving DecidableEq, Repr

/-- One iteration of the move loop (source lines 166-188) for the pair
(`category`, `file`): skip with reason `not found` when the source path is
gone; otherwise create the category folder (an exception here escapes to
the top-level handler), timestamp-rename on a destination collision, then
move, recording either the moved file or a skip with the move error. -/
def processOne (env : Env) (s : LoopState) (category file : String) :
    Except (LoopState × String) LoopState :=
  if (s.fs.top.lookup file).isNone then
    .ok { s with skipped := s.skipped ++ [file ++ " (not found)"] }
  else
    match s.fs.makedirs category with
    | .error msg => .error (s, msg)
    | .ok fs1 =>
      let dest :=
        if fs1.folderContains category file then tsRename env.clock file
        else file
      match env.moveFail file with
      | some m =>
        .ok { s with fs := fs1, skipped := s.skipped ++ [file ++ " (" ++ m ++ ")"] }
      | none =>
        .ok ⟨(fs1.moveOut file).addToFolder category dest,
             setdefaultAppend s.moved category file, s.skipped⟩

/-- The nested `for category / for file` loops of `organize`, over the
flattened (category, file) pair sequence in iteration order. -/
def moveLoop (env : Env) : List (String × String) → LoopState →
    Except (LoopState × String) LoopState
  | [], s => .ok s
  | (c, f) :: rest, s =>
    match processOne env s c f with
    | .error e => .error e
    | .ok s' => moveLoop env rest s'

/-- Flatten a category plan into its (category, file) pairs in iteration
order. -/
def pairsOf (cats : List (String × List String)) : List (String × String) :=
  cats.foldr (fun p acc => p.2.map (fun f => (p.1, f)) ++ acc) []

/-- The file enumeration of `organize` (source lines 142-144): non-hidden
top-level entries that are files. -/
def topFileNames (fs : FS) : List String :=
  (fs.top.filter (fun p => !(startsWithDot p.1) && !p.2)).map Prod.fst

/-- Python `sorted` on strings (a stable sort; on strings any sorted
permutation is unique, insertion sort realises it). -/
def sortStr (l : List String) : List String :=
  List.insertionSort (fun a b => strLe a b = true) l

/-- The dry-run preview lines (source lines 154-158), built by the same
append loop as the code. -/
def previewLines (cats : List (String × List String)) : List String :=
  cats.foldl
    (fun acc p => (acc ++ ["\n" ++ p.1 ++ ":"]) ++ p.2.map (fun f => "  - " ++ f))
    ["Preview of organization plan:"]

/-- The post-move summary lines (source lines 191-200). -/
def summaryLines (moved : List (String × List String)) (skipped : List String) :
    List String :=
  let base := moved.foldl
    (fun acc p =>
      (acc ++ ["\n" ++ p.1 ++ " (" ++ toString p.2.length ++ " files):"])
        ++ (sortStr p.2).map (fun f => "  - " ++ f))
    ["Organization Complete!"]
  if skipped.isEmpty then base
  else (base ++ ["\nSkipped files:"]) ++ (sortStr skipped).map (fun f => "  - " ++ f)

/-- What a public tool call hands back: a normal return string, or the
formatted error string `truffle.ReportError(e)` produced by the top-level
exception handler (the external library's formatting is abstracted to the
exception message it is given). -/
inductive Output
  | msg (s : String)
  | errorReport (e : String)
deriving DecidableEq, Repr

/-- Embedding of `DesktopOrganizer.organize` (source lines 135-204),
assuming the desktop directory exists.  Returns the filesystem after the
call together with the returned text. -/
def organize (env : Env) (fs : FS) (dryRun : Bool) : FS × Output :=
  let files := topFileNames fs
  if files.isEmpty then (fs, .msg "No files to organize on the desktop.")
  else
    let categories := env.plan files
    if dryRun then
      (fs, .msg (String.intercalate "\n" (previewLines categories)))
    else
      match moveLoop env (pairsOf categories) ⟨fs, [], []⟩ with
      | .error (s, m) => (s.fs, .errorReport m)
      | .ok s => (s.fs, .msg (String.intercalate "\n" (summaryLines s.moved s.skipped)))

/-- The entries `show_status` iterates over (source lines 45-47). -/
def visibleEntries (fs : FS) (includeHidden : Bool) : List (String × Bool) :=
  fs.top.filter (fun p => includeHidden || !(startsWithDot p.1))

/-- The folder names collected by `show_status`. -/
def statusFolders (fs : FS) (includeHidden : Bool) : List String :=
  ((visibleEntries fs includeHidden).filter (fun p => p.2)).map Prod.fst

/-- The file names collected by `show_status`. -/
def statusFiles (fs : FS) (includeHidden : Bool) : List String :=
  ((visibleEntries fs includeHidden).filter (fun p => !p.2)).map Prod.fst

/-- Embedding of `DesktopOrganizer.show_status` (source lines 36-70),
assuming the desktop directory exists.  The function only reads `fs`. -/
def show_status (fs : FS) (includeHidden : Bool) : String :=
  let folders := statusFolders fs includeHidden
  let files := statusFiles fs includeHidden
  let status :=
    ["Desktop Status:", "\nTotal Items: " ++ toString (files.length + folders.length)]
      ++ (if folders.isEmpty then []
          else "\nFolders:" :: (sortStr folders).map (fun n => "  - " ++ n))
      ++ (if files.isEmpty then []
          else "\nFiles:" :: (sortStr files).map (fun n => "  - " ++ n))
  String.intercalate "\n" status

/-! Concrete desktop states and environments used to instantiate the
theorems below. -/

/-- A desktop holding `report.txt` next to an existing folder
`DocCategory` that already contains a `report.txt`. -/
def fsC1 : FS :=
  ⟨[("report.txt", false), ("DocCategory", true)], [("DocCategory", ["report.txt"])]⟩

/-- A run whose plan sends `report.txt` to `DocCategory`, with no move
errors, at clock 2025-01-02 03:04:05. -/
def envC1 : Env :=
  ⟨fun _ => [("DocCategory", ["report.txt"])], fun _ => none, ⟨2025, 1, 2, 3, 4, 5⟩⟩

/-- A desktop with three plain files, one of which (`Y`) shares its name
with a category of the plan below. -/
def fsC2 : FS := ⟨[("a.txt", false), ("b.txt", false), ("Y", false)], []⟩

/-- A run whose plan first moves `a.txt` into `Docs` and then needs a
category folder `Y` — which collides with the file `Y`. -/
def envC2 : Env :=
  ⟨fun _ => [("Docs", ["a.txt"]), ("Y", ["b.txt"])], fun _ => none, ⟨2025, 1, 2, 3, 4, 5⟩⟩

/-- A desktop with a single file `n.txt`. -/
def fsC3 : FS := ⟨[("n.txt", false)], []⟩

/-- A plan that assigns the same file name `n.txt` to two categories. -/
def envC3 : Env :=
  ⟨fun _ => [("A", ["n.txt"]), ("B", ["n.txt"])], fun _ => none, ⟨2025, 1, 2, 3, 4, 5⟩⟩

/-- A run in which every `shutil.move` raises `Permission denied`. -/
def envC4 : Env :=
  ⟨fun _ => [("Docs", ["a.txt"])], fun _ => some "Permission denied", ⟨2025, 1, 2, 3, 4, 5⟩⟩

/-- A small mixed desktop for the `show_status` instantiation: a hidden
file, two folders and two files. -/
def fsC5 : FS :=
  ⟨[(".DS_Store", false), ("b.txt", false), ("Zeta", true), ("Alpha", true), ("a.txt", false)],
   []⟩

/-- A run whose plan sends every enumerated file into `Docs`, with no move
errors. -/
def envC6 : Env :=
  ⟨fun files => [("Docs", files)], fun _ => none, ⟨2025, 1, 2, 3, 4, 5⟩⟩

/-- A desktop with two plain files `g` and `n.txt`. -/
def fsC8 : FS := ⟨[("g", false), ("n.txt", false)], []⟩

/-- A plan whose first pair moves another file `g` (whose move raises)
before `n.txt` is assigned to the two categories `A` and `B`; only the
move of `n.txt` itself is required to succeed. -/
def envC8 : Env :=
  ⟨fun _ => [("X", ["g"]), ("A", ["n.txt"]), ("B", ["n.txt"])],
   fun n => if n = "n.txt" then none else some "boom",
   ⟨2025, 1, 2, 3, 4, 5⟩⟩

/-- A desktop with two plain files `f.txt` and `g`. -/
def fsC7 : FS := ⟨[("f.txt", false), ("g", false)], []⟩

/-- A plan that assigns `f.txt` to two categories and, in between, also
uses `f.txt` itself as a category name. -/
def envC7 : Env :=
  ⟨fun _ => [("A", ["f.txt"]), ("f.txt", ["g"]), ("B", ["f.txt"])], fun _ => none,
   ⟨2025, 1, 2, 3, 4, 5⟩⟩

/-- The comparison used by `sortStr` is total. -/
instance : IsTotal String (fun a b => strLe a b = true) :=
  ⟨by
    have key : ∀ x y : List Char, charListLe x y = true ∨ charListLe y x = true := by
      intro x
      induction x with
      | nil => intro y; exact .inl rfl
      | cons a as ih =>
        intro y
        cases y with
        | nil => exact .inr rfl
        | cons b bs =>
          by_cases h1 : a.toNat < b.toNat
          · exact .inl (by simp [charListLe, h1])
          · by_cases h2 : b.toNat < a.toNat
            · exact .inr (by simp [charListLe, h1, h2])
            · rcases ih bs with h | h
              · exact .inl (by simp [charListLe, h1, h2, h])
              · exact .inr (by simp [charListLe, h1, h2, h])
    intro a b
    exact key a.data b.data⟩

/-- The comparison used by `sortStr` is transitive. -/
instance : IsTrans String (fun a b => strLe a b = true) :=
  ⟨by
    have key : ∀ x y z : List Char, charListLe x y = true → charListLe y z = true →
        charListLe x z = true := by
      intro x
      induction x with
      | nil => intro y z _ _; rfl
      | cons a as ih =>
        intro y z hxy hyz
        cases y with
        | nil => exact absurd hxy (by simp [charListLe])
        | cons b bs =>
          cases z with
          | nil => exact absurd hyz (by simp [charListLe])
          | cons cc cs =>
            simp only [charListLe] at hxy hyz ⊢
            split_ifs at hxy hyz ⊢ <;>
              first
                | rfl
                | (exact absurd hxy (by decide))
                | (exact absurd hyz (by decide))
                | omega
                | exact ih bs cs hxy hyz
    intro a b c
    exact key a.data b.data c.data⟩

/-! Helper lemmas about the embedded primitives. -/

theorem string_append_empty (s : String) : s ++ "" = s := by
  show String.mk (s.data ++ []) = s
  rw [List.append_nil]

theorem string_mk_append (a b : List Char) : String.mk a ++ String.mk b = String.mk (a ++ b) :=
  rfl

theorem splitext_append (s : String) : (splitext s).1 ++ (splitext s).2 = s := by
  unfold splitext
  by_cases h : '.' ∈ s.data
  · simp only [h, if_true]
    split
    · exact string_append_empty s
    · rw [string_mk_append, List.take_append_drop]
  · simp only [h, if_false]
    exact string_append_empty s

theorem strftimeTS_length (t : DateTime) : (strftimeTS t).length = 15 := rfl

theorem string_length_append (a b : String) : (a ++ b).length = a.length + b.length := by
  show (a.data ++ b.data).length = a.data.length + b.data.length
  exact List.length_append a.data b.data

theorem tsRename_ne (t : DateTime) (f : String) : tsRename t f ≠ f := by
  intro h
  have hlen : (tsRename t f).length = f.length := congrArg String.length h
  have hsplit : ((splitext f).1 ++ (splitext f).2).length = f.length :=
    congrArg String.length (splitext_append f)
  rw [tsRename] at hlen
  rw [string_length_append] at hsplit
  rw [string_length_append, string_length_append, string_length_append,
    strftimeTS_length] at hlen
  have h1 : ("_" : String).length = 1 := rfl
  rw [h1] at hlen
  omega

theorem digitChar10_isDigit (n : Nat) : (digitChar10 n).isDigit = true := by
  have h : n % 10 < 10 := Nat.mod_lt _ (by omega)
  unfold digitChar10
  interval_cases h : n % 10 <;> decide

theorem lookup_cons {β : Type} (k : String) (p : String × β) (rest : List (String × β)) :
    List.lookup k (p :: rest) = if k = p.1 then some p.2 else List.lookup k rest := by
  by_cases h : k = p.1
  · have hb : (k == p.1) = true := beq_iff_eq.mpr h
    show (match k == p.1 with
          | true => some p.2
          | false => List.lookup k rest) = _
    rw [hb, if_pos h]
  · have hb : (k == p.1) = false := by simpa using h
    show (match k == p.1 with
          | true => some p.2
          | false => List.lookup k rest) = _
    rw [hb, if_neg h]

theorem lookup_eq_none_of_not_mem {β : Type} (l : List (String × β)) (k : String)
    (h : k ∉ l.map Prod.fst) : l.lookup k = none := by
  induction l with
  | nil => rfl
  | cons p rest ih =>
    rw [lookup_cons]
    simp only [List.map_cons, List.mem_cons] at h
    push_neg at h
    rw [if_neg h.1]
    exact ih h.2

theorem lookup_append_left {β : Type} (l1 l2 : List (String × β)) (n : String)
    (h : l1.lookup n = none) : (l1 ++ l2).lookup n = l2.lookup n := by
  induction l1 with
  | nil => rfl
  | cons p rest ih =>
    rw [lookup_cons] at h
    by_cases hp : n = p.1
    · rw [if_pos hp] at h
      exact absurd h (by simp)
    · rw [if_neg hp] at h
      rw [List.cons_append, lookup_cons, if_neg hp]
      exact ih h

theorem lookup_eraseEntry_self (l : List (String × Bool)) (n : String)
    (hnod : (l.map Prod.fst).Nodup) : (eraseEntry l n).lookup n = none := by
  induction l with
  | nil => rfl
  | cons p rest ih =>
    simp only [List.map_cons, List.nodup_cons] at hnod
    by_cases hp : p.1 = n
    · rw [eraseEntry, if_pos hp]
      exact lookup_eq_none_of_not_mem rest n (hp ▸ hnod.1)
    · rw [eraseEntry, if_neg hp, lookup_cons, if_neg (fun hc => hp hc.symm)]
      exact ih hnod.2

theorem lookup_eraseEntry_none (l : List (String × Bool)) (n k : String)
    (h : l.lookup k = none) : (eraseEntry l n).lookup k = none := by
  induction l with
  | nil => rfl
  | cons p rest ih =>
    rw [lookup_cons] at h
    by_cases hkp : k = p.1
    · rw [if_pos hkp] at h
      exact absurd h (by simp)
    · rw [if_neg hkp] at h
      by_cases hp : p.1 = n
      · rw [eraseEntry, if_pos hp]
        exact h
      · rw [eraseEntry, if_neg hp, lookup_cons, if_neg hkp]
        exact ih h

theorem lookup_eraseSub_ne (m : List (String × List String)) (n k : String)
    (hk : k ≠ n) : (eraseSub m n).lookup k = m.lookup k := by
  induction m with
  | nil => rfl
  | cons p rest ih =>
    by_cases hp : p.1 = n
    · rw [eraseSub, if_pos hp, lookup_cons, if_neg (fun hc => hk (hc.trans hp))]
    · rw [eraseSub, if_neg hp, lookup_cons, lookup_cons]
      by_cases hkp : k = p.1
      · rw [if_pos hkp, if_pos hkp]
      · rw [if_neg hkp, if_neg hkp, ih]

theorem makedirs_ok_cases (fs : FS) (c : String) (fs1 : FS)
    (h : fs.makedirs c = .ok fs1) :
    (fs.top.lookup c = some true ∧ fs1 = fs) ∨
    (fs.top.lookup c = none ∧ fs1 = { fs with top := fs.top ++ [(c, true)] }) := by
  unfold FS.makedirs at h
  cases hc : fs.top.lookup c with
  | none =>
    rw [hc] at h
    exact .inr ⟨rfl, (Except.ok.inj h).symm⟩
  | some b =>
    cases b with
    | true =>
      rw [hc] at h
      exact .inl ⟨rfl, (Except.ok.inj h).symm⟩
    | false =>
      rw [hc] at h
      exact absurd h (by simp)

theorem makedirs_src_ne (fs : FS) (c f : String) (fs1 : FS)
    (h1 : fs.top.lookup f = some false) (h2 : fs.makedirs c = .ok fs1) : c ≠ f := by
  intro hcf
  subst hcf
  unfold FS.makedirs at h2
  rw [h1] at h2
  exact absurd h2 (by simp)

theorem makedirs_sub_eq (fs : FS) (c : String) (fs1 : FS)
    (h : fs.makedirs c = .ok fs1) : fs1.sub = fs.sub := by
  rcases makedirs_ok_cases fs c fs1 h with ⟨_, rfl⟩ | ⟨_, rfl⟩ <;> rfl

theorem not_mem_of_lookup_none {β : Type} (l : List (String × β)) (k : String)
    (h : l.lookup k = none) : k ∉ l.map Prod.fst := by
  induction l with
  | nil => simp
  | cons p rest ih =>
    rw [lookup_cons] at h
    by_cases hkp : k = p.1
    · rw [if_pos hkp] at h
      exact absurd h (by simp)
    · rw [if_neg hkp] at h
      simp only [List.map_cons, List.mem_cons]
      push_neg
      exact ⟨hkp, ih h⟩

theorem makedirs_top_nodup (fs : FS) (c : String) (fs1 : FS)
    (h : fs.makedirs c = .ok fs1) (hnod : (fs.top.map Prod.fst).Nodup) :
    (fs1.top.map Prod.fst).Nodup := by
  rcases makedirs_ok_cases fs c fs1 h with ⟨_, rfl⟩ | ⟨hc, rfl⟩
  · exact hnod
  · show ((fs.top ++ [(c, true)]).map Prod.fst).Nodup
    rw [List.map_append]
    refine List.Nodup.append hnod (by simp) ?_
    intro a ha hb
    simp only [List.map_cons, List.map_nil, List.mem_singleton] at hb
    subst hb
    exact not_mem_of_lookup_none fs.top a hc ha

theorem lookup_append_some {β : Type} (l1 l2 : List (String × β)) (k : String) (v : β)
    (h : l1.lookup k = some v) : (l1 ++ l2).lookup k = some v := by
  induction l1 with
  | nil => exact Option.noConfusion h
  | cons p rest ih =>
    rw [lookup_cons] at h
    rw [List.cons_append, lookup_cons]
    by_cases hkp : k = p.1
    · rw [if_pos hkp] at h ⊢
      exact h
    · rw [if_neg hkp] at h ⊢
      exact ih h

theorem makedirs_lookup_some (fs : FS) (c f : String) (fs1 : FS) (b : Bool)
    (h : fs.makedirs c = .ok fs1) (hf : fs.top.lookup f = some b) :
    fs1.top.lookup f = some b := by
  rcases makedirs_ok_cases fs c fs1 h with ⟨_, rfl⟩ | ⟨_, rfl⟩
  · exact hf
  · exact lookup_append_some fs.top [(c, true)] f b hf

theorem makedirs_lookup_none (fs : FS) (c f : String) (fs1 : FS)
    (h : fs.makedirs c = .ok fs1) (hf : fs.top.lookup f = none) (hcf : f ≠ c) :
    fs1.top.lookup f = none := by
  rcases makedirs_ok_cases fs c fs1 h with ⟨_, rfl⟩ | ⟨_, rfl⟩
  · exact hf
  · show (fs.top ++ [(c, true)]).lookup f = none
    rw [lookup_append_left fs.top _ f hf, lookup_cons, if_neg hcf]
    rfl

theorem mem_appendNew_self (l : List String) (n : String) : n ∈ appendNew l n := by
  unfold appendNew
  by_cases h : n ∈ l
  · rwa [if_pos h]
  · rw [if_neg h]
    exact List.mem_append_right l (List.mem_singleton.mpr rfl)

theorem mem_appendNew_of_mem (l : List String) (n x : String) (h : x ∈ l) :
    x ∈ appendNew l n := by
  unfold appendNew
  by_cases hn : n ∈ l
  · rwa [if_pos hn]
  · rw [if_neg hn]
    exact List.mem_append_left _ h

theorem addName_lookup_self (m : List (String × List String)) (k v : String) :
    (addName m k v).lookup k = some (appendNew ((m.lookup k).getD []) v) := by
  induction m with
  | nil =>
    show List.lookup k [(k, [v])] = _
    rw [lookup_cons, if_pos rfl]
    rfl
  | cons p rest ih =>
    by_cases hp : p.1 = k
    · rw [addName, if_pos hp, lookup_cons, if_pos hp.symm, lookup_cons, if_pos hp.symm]
      rfl
    · rw [addName, if_neg hp, lookup_cons, if_neg (fun hc => hp hc.symm),
        lookup_cons, if_neg (fun hc => hp hc.symm)]
      exact ih

theorem contains_iff_mem (l : List String) (a : String) :
    l.contains a = true ↔ a ∈ l :=
  List.elem_iff

theorem folderContains_addToFolder_self (fs : FS) (c v : String) :
    (fs.addToFolder c v).folderContains c v = true := by
  unfold FS.addToFolder FS.folderContains
  rw [addName_lookup_self, Option.getD_some]
  exact (contains_iff_mem _ _).mpr (mem_appendNew_self _ _)

theorem folderContains_addToFolder_of (fs : FS) (c v x : String)
    (h : fs.folderContains c x = true) :
    (fs.addToFolder c v).folderContains c x = true := by
  unfold FS.folderContains at h
  unfold FS.addToFolder FS.folderContains
  rw [addName_lookup_self, Option.getD_some]
  exact (contains_iff_mem _ _).mpr
    (mem_appendNew_of_mem _ _ _ ((contains_iff_mem _ _).mp h))

theorem folderContains_moveOut_ne (fs : FS) (f c x : String) (hcf : c ≠ f)
    (h : fs.folderContains c x = true) :
    (fs.moveOut f).folderContains c x = true := by
  unfold FS.folderContains at h
  unfold FS.moveOut FS.folderContains
  rw [lookup_eraseSub_ne fs.sub f c hcf]
  exact h

/-! Claim theorems. -/

/-- C3 (code_bug evaluation): the fallback categorization of
`analyze_files` puts a file without an extension into `Other`, not into
`No Extension` — the code replaces the empty extension by the string
`No Extension` and then looks that string up in the extension table, where
it misses and falls to the `Other` default.  On the spec's own example
input the result is therefore `Other`, not `No Extension`, for `notes`. -/
theorem analyzeFilesFallback_no_extension_goes_to_other :
    analyzeFilesFallback ["a.jpg", "b.txt", "notes"] =
      [("Images", ["a.jpg"]), ("Documents", ["b.txt"]), ("Other", ["notes"])]
    ∧ analyzeFilesFallback ["notes"] = [("Other", ["notes"])]
    ∧ ∀ cat ∈ (analyzeFilesFallback ["a.jpg", "b.txt", "notes"]).map Prod.fst,
        cat ≠ "No Extension" := by
  refine ⟨rfl, rfl, ?_⟩
  decide

/-- C6: a move-time exception for one file is caught individually: the
loop records the file in the skipped list together with the exception's
message, leaves the moved mapping untouched, and continues with the
remaining (category, file) pairs. -/
theorem organize_move_error_skip (env : Env) (s : LoopState) (c f m : String)
    (rest : List (String × String)) (fs1 : FS)
    (hex : (s.fs.top.lookup f).isSome = true)
    (hmk : s.fs.makedirs c = .ok fs1)
    (hfail : env.moveFail f = some m) :
    moveLoop env ((c, f) :: rest) s =
      moveLoop env rest
        { s with fs := fs1, skipped := s.skipped ++ [f ++ " (" ++ m ++ ")"] } := by
  obtain ⟨b, hb⟩ := Option.isSome_iff_exists.mp hex
  simp [moveLoop, processOne, hb, hmk, hfail]

/-- Witness for C6, at a concrete desktop where moving `a.txt` raises
`Permission denied`. -/
theorem organize_move_error_skip_witness :
    moveLoop envC4 [("Docs", "a.txt")] ⟨fsC2, [], []⟩ =
      moveLoop envC4 []
        ⟨⟨fsC2.top ++ [("Docs", true)], fsC2.sub⟩, [], ["a.txt (Permission denied)"]⟩ :=
  organize_move_error_skip envC4 ⟨fsC2, [], []⟩ "Docs" "a.txt" "Permission denied" []
    ⟨fsC2.top ++ [("Docs", true)], fsC2.sub⟩ (by decide) (by rfl) (by rfl)

/-- C7: a file of the plan whose source path no longer exists at move time
is recorded in the skipped list with the `not found` reason; the moved
mapping and the filesystem (in particular, category folders) are untouched
for it and the loop continues with the remaining pairs. -/
theorem organize_missing_source_skip (env : Env) (s : LoopState) (c f : String)
    (rest : List (String × String))
    (hnf : s.fs.top.lookup f = none) :
    moveLoop env ((c, f) :: rest) s =
      moveLoop env rest { s with skipped := s.skipped ++ [f ++ " (not found)"] } := by
  simp [moveLoop, processOne, hnf]

/-- Witness for C7, at a concrete desktop that does not contain the
planned file `gone.txt`. -/
theorem organize_missing_source_skip_witness :
    moveLoop envC3 [("A", "gone.txt")] ⟨fsC3, [], []⟩ =
      moveLoop envC3 [] ⟨fsC3, [], ["gone.txt (not found)"]⟩ :=
  organize_missing_source_skip envC3 ⟨fsC3, [], []⟩ "A" "gone.txt" [] (by rfl)

/-- C1 (amended): on a successful move the moved-by-category mapping
records the file's original source name; when a destination collision has
forced a timestamp rename, the destination holds the timestamped name,
which differs from the recorded one. -/
theorem organize_moved_records_source_name (env : Env) (s : LoopState)
    (c f : String) (fs1 : FS)
    (hsrc : s.fs.top.lookup f = some false)
    (hmk : s.fs.makedirs c = .ok fs1)
    (hcol : fs1.folderContains c f = true)
    (hmv : env.moveFail f = none) :
    processOne env s c f =
      .ok ⟨(fs1.moveOut f).addToFolder c (tsRename env.clock f),
           setdefaultAppend s.moved c f, s.skipped⟩
    ∧ tsRename env.clock f ≠ f := by
  refine ⟨?_, tsRename_ne env.clock f⟩
  simp [processOne, hsrc, hmk, hcol, hmv]

/-- Witness for the amended C1 at the concrete collision scenario. -/
theorem organize_moved_records_source_name_witness :
    processOne envC1 ⟨fsC1, [], []⟩ "DocCategory" "report.txt" =
      .ok ⟨(fsC1.moveOut "report.txt").addToFolder "DocCategory"
             (tsRename envC1.clock "report.txt"),
           setdefaultAppend [] "DocCategory" "report.txt", []⟩
    ∧ tsRename envC1.clock "report.txt" ≠ "report.txt" :=
  organize_moved_records_source_name envC1 ⟨fsC1, [], []⟩ "DocCategory" "report.txt"
    fsC1 (by rfl) (by rfl) (by rfl) (by rfl)

/-- Counterexample to C1 as stated: in the collision run the destination
folder holds `report_20250102_030405.txt`, but the moved-by-category
mapping pairs `DocCategory` with the original source name `report.txt`;
the final destination name appears in no recorded list. -/
theorem organize_moved_name_counterexample :
    ∃ s' : LoopState,
      moveLoop envC1 (pairsOf (envC1.plan (topFileNames fsC1))) ⟨fsC1, [], []⟩ = .ok s'
      ∧ s'.fs.folderContains "DocCategory" "report_20250102_030405.txt" = true
      ∧ s'.moved = [("DocCategory", ["report.txt"])]
      ∧ ∀ l ∈ s'.moved.map Prod.snd, "report_20250102_030405.txt" ∉ l := by
  refine ⟨_, rfl, ?_, rfl, ?_⟩ <;> decide

/-- C2 (amended): an exception escaping the move loop is caught once at
the top level and `organize` returns the formatted error string built from
it instead of propagating; the returned filesystem is the loop state at
the raise point, so changes made before the exception persist. -/
theorem organize_top_error_reported (env : Env) (fs : FS) (ls : LoopState) (m : String)
    (hne : (topFileNames fs).isEmpty = false)
    (hrun : moveLoop env (pairsOf (env.plan (topFileNames fs))) ⟨fs, [], []⟩ =
      .error (ls, m)) :
    organize env fs false = (ls.fs, .errorReport m) := by
  simp [organize, hne, hrun]

/-- Witness for the amended C2 at the concrete colliding-category run. -/
theorem organize_top_error_reported_witness :
    organize envC2 fsC2 false =
      (FS.mk [("b.txt", false), ("Y", false), ("Docs", true)] [("Docs", ["a.txt"])],
       Output.errorReport "File exists: Y") :=
  organize_top_error_reported envC2 fsC2
    ⟨⟨[("b.txt", false), ("Y", false), ("Docs", true)], [("Docs", ["a.txt"])]⟩,
     [("Docs", ["a.txt"])], []⟩
    "File exists: Y" (by rfl) (by rfl)

/-- Counterexample to C2 as stated: in this run the operation does return
a formatted error string, but the filesystem is not unchanged — `a.txt`
was already moved into the newly created `Docs` folder before the
exception was raised. -/
theorem organize_top_error_partial_changes :
    (organize envC2 fsC2 false).2 = Output.errorReport "File exists: Y"
    ∧ (organize envC2 fsC2 false).1 ≠ fsC2
    ∧ (organize envC2 fsC2 false).1.folderContains "Docs" "a.txt" = true := by
  refine ⟨rfl, ?_, rfl⟩
  decide

theorem previewLines_aux (cats : List (String × List String)) (acc : List String) :
    cats.foldl
      (fun a p => (a ++ ["\n" ++ p.1 ++ ":"]) ++ p.2.map (fun f => "  - " ++ f)) acc =
    acc ++ cats.foldr
      (fun p r => (("\n" ++ p.1 ++ ":") :: p.2.map (fun f => "  - " ++ f)) ++ r) [] := by
  induction cats generalizing acc with
  | nil => simp
  | cons p rest ih =>
    rw [List.foldl_cons, List.foldr_cons, ih]
    simp [List.append_assoc]

/-- C4: a dry run never changes the filesystem, and its preview text is
the rendering of exactly the category plan that `analyze_files` returned
for the current file set — one header line per category followed by one
line per planned file, and nothing else. -/
theorem organize_dry_run_preview (env : Env) (fs : FS)
    (hne : (topFileNames fs).isEmpty = false) :
    (∀ e : Env, ∀ g : FS, (organize e g true).1 = g)
    ∧ organize env fs true =
        (fs, .msg (String.intercalate "\n" (previewLines (env.plan (topFileNames fs)))))
    ∧ ∀ cats : List (String × List String),
        previewLines cats =
          "Preview of organization plan:" ::
            cats.foldr
              (fun p r => (("\n" ++ p.1 ++ ":") :: p.2.map (fun f => "  - " ++ f)) ++ r)
              [] := by
  refine ⟨?_, ?_, ?_⟩
  · intro e g
    unfold organize
    by_cases h : (topFileNames g).isEmpty <;> simp [h]
  · simp [organize, hne]
  · intro cats
    exact previewLines_aux cats ["Preview of organization plan:"]

/-- Witness for C4 at a concrete three-file desktop. -/
theorem organize_dry_run_preview_witness :
    (∀ e : Env, ∀ g : FS, (organize e g true).1 = g)
    ∧ organize envC2 fsC2 true =
        (fsC2, .msg (String.intercalate "\n" (previewLines (envC2.plan (topFileNames fsC2)))))
    ∧ ∀ cats : List (String × List String),
        previewLines cats =
          "Preview of organization plan:" ::
            cats.foldr
              (fun p r => (("\n" ++ p.1 ++ ":") :: p.2.map (fun f => "  - " ++ f)) ++ r)
              [] :=
  organize_dry_run_preview envC2 fsC2 (by rfl)

/-- C5: when the destination already holds a file of the same name, the
move lands under the name obtained by inserting the `%Y%m%d_%H%M%S`
timestamp between base name and extension — a name of shape
`base_<8 digits>_<6 digits>ext`, distinct from the original — while the
previously existing destination file stays in the folder and the source
entry disappears from the desktop root. -/
theorem organize_collision_timestamp_rename (env : Env) (s : LoopState) (c f : String)
    (fs1 : FS)
    (hnod : (s.fs.top.map Prod.fst).Nodup)
    (hsrc : s.fs.top.lookup f = some false)
    (hmk : s.fs.makedirs c = .ok fs1)
    (hcol : fs1.folderContains c f = true)
    (hmv : env.moveFail f = none) :
    ∃ s' : LoopState,
      processOne env s c f = .ok s'
      ∧ s'.fs.folderContains c (tsRename env.clock f) = true
      ∧ s'.fs.folderContains c f = true
      ∧ s'.fs.top.lookup f = none
      ∧ tsRename env.clock f =
          (splitext f).1 ++ "_" ++ strftimeTS env.clock ++ (splitext f).2
      ∧ (∃ a b : List Char,
          (strftimeTS env.clock).data = a ++ '_' :: b
          ∧ a.length = 8 ∧ b.length = 6
          ∧ (∀ ch ∈ a, ch.isDigit = true) ∧ (∀ ch ∈ b, ch.isDigit = true))
      ∧ tsRename env.clock f ≠ f := by
  have hcf : c ≠ f := makedirs_src_ne s.fs c f fs1 hsrc hmk
  refine ⟨⟨(fs1.moveOut f).addToFolder c (tsRename env.clock f),
      setdefaultAppend s.moved c f, s.skipped⟩,
    ?_, ?_, ?_, ?_, rfl, ?_, tsRename_ne env.clock f⟩
  · simp [processOne, hsrc, hmk, hcol, hmv]
  · exact folderContains_addToFolder_self _ c _
  · exact folderContains_addToFolder_of _ c _ f (folderContains_moveOut_ne fs1 f c f hcf hcol)
  · show (eraseEntry fs1.top f).lookup f = none
    exact lookup_eraseEntry_self fs1.top f (makedirs_top_nodup s.fs c fs1 hmk hnod)
  · refine ⟨[digitChar10 (env.clock.year / 1000), digitChar10 (env.clock.year / 100),
        digitChar10 (env.clock.year / 10), digitChar10 env.clock.year,
        digitChar10 (env.clock.month / 10), digitChar10 env.clock.month,
        digitChar10 (env.clock.day / 10), digitChar10 env.clock.day],
      [digitChar10 (env.clock.hour / 10), digitChar10 env.clock.hour,
        digitChar10 (env.clock.minute / 10), digitChar10 env.clock.minute,
        digitChar10 (env.clock.second / 10), digitChar10 env.clock.second],
      rfl, rfl, rfl, ?_, ?_⟩
    · intro ch hch
      simp only [List.mem_cons, List.not_mem_nil, or_false] at hch
      rcases hch with rfl | rfl | rfl | rfl | rfl | rfl | rfl | rfl <;>
        exact digitChar10_isDigit _
    · intro ch hch
      simp only [List.mem_cons, List.not_mem_nil, or_false] at hch
      rcases hch with rfl | rfl | rfl | rfl | rfl | rfl <;>
        exact digitChar10_isDigit _

/-- Witness for C5 at the concrete collision scenario. -/
theorem organize_collision_timestamp_rename_witness :
    ∃ s' : LoopState,
      processOne envC1 ⟨fsC1, [], []⟩ "DocCategory" "report.txt" = .ok s'
      ∧ s'.fs.folderContains "DocCategory" (tsRename envC1.clock "report.txt") = true
      ∧ s'.fs.folderContains "DocCategory" "report.txt" = true
      ∧ s'.fs.top.lookup "report.txt" = none
      ∧ tsRename envC1.clock "report.txt" =
          (splitext "report.txt").1 ++ "_" ++ strftimeTS envC1.clock
            ++ (splitext "report.txt").2
      ∧ (∃ a b : List Char,
          (strftimeTS envC1.clock).data = a ++ '_' :: b
          ∧ a.length = 8 ∧ b.length = 6
          ∧ (∀ ch ∈ a, ch.isDigit = true) ∧ (∀ ch ∈ b, ch.isDigit = true))
      ∧ tsRename envC1.clock "report.txt" ≠ "report.txt" :=
  organize_collision_timestamp_rename envC1 ⟨fsC1, [], []⟩ "DocCategory" "report.txt"
    fsC1 (by decide) (by rfl) (by rfl) (by rfl) (by rfl)

theorem sortStr_isEmpty (l : List String) : (sortStr l).isEmpty = l.isEmpty := by
  cases l with
  | nil => rfl
  | cons x xs =>
    have hlen : (sortStr (x :: xs)).length = (x :: xs).length :=
      List.length_insertionSort _ _
    cases h : sortStr (x :: xs) with
    | nil => rw [h] at hlen; simp at hlen
    | cons y ys => rfl

/-- C9: `show_status` partitions the listed entries into folders and
files, drops names starting with a dot when `include_hidden` is false,
and renders the total item count followed by the folder names and then
the file names, each block being a lexicographically sorted permutation
of the collected names; the function reads the filesystem and returns
only text. -/
theorem show_status_partitions_and_sorts (fs : FS) (includeHidden : Bool) :
    ∃ sf sfi : List String,
      show_status fs includeHidden = String.intercalate "\n"
        (["Desktop Status:",
          "\nTotal Items: " ++ toString
            ((statusFiles fs includeHidden).length + (statusFolders fs includeHidden).length)]
         ++ (if sf.isEmpty then [] else "\nFolders:" :: sf.map (fun n => "  - " ++ n))
         ++ (if sfi.isEmpty then [] else "\nFiles:" :: sfi.map (fun n => "  - " ++ n)))
      ∧ sf.Perm (statusFolders fs includeHidden)
      ∧ List.Sorted (fun a b => strLe a b = true) sf
      ∧ sfi.Perm (statusFiles fs includeHidden)
      ∧ List.Sorted (fun a b => strLe a b = true) sfi
      ∧ (includeHidden = false →
          ∀ n ∈ statusFolders fs includeHidden ++ statusFiles fs includeHidden,
            startsWithDot n = false) := by
  refine ⟨sortStr (statusFolders fs includeHidden), sortStr (statusFiles fs includeHidden),
    ?_, List.perm_insertionSort _ _, List.sorted_insertionSort _ _,
    List.perm_insertionSort _ _, List.sorted_insertionSort _ _, ?_⟩
  · simp only [show_status, sortStr_isEmpty]
  · intro hfalse n hn
    subst hfalse
    have key : ∀ l : List (String × Bool), ∀ q : String × Bool → Bool,
        n ∈ ((visibleEntries fs false).filter q).map Prod.fst → startsWithDot n = false := by
      intro l q hmem
      rcases List.mem_map.mp hmem with ⟨p, hp, rfl⟩
      rcases List.mem_filter.mp hp with ⟨hp2, _⟩
      rcases List.mem_filter.mp hp2 with ⟨_, hcond⟩
      simpa using hcond
    rcases List.mem_append.mp hn with h | h
    · exact key fs.top _ h
    · exact key fs.top _ h

/-- Witness for C9 at a concrete mixed desktop with a hidden file. -/
theorem show_status_partitions_and_sorts_witness :
    ∃ sf sfi : List String,
      show_status fsC5 false = String.intercalate "\n"
        (["Desktop Status:",
          "\nTotal Items: " ++ toString
            ((statusFiles fsC5 false).length + (statusFolders fsC5 false).length)]
         ++ (if sf.isEmpty then [] else "\nFolders:" :: sf.map (fun n => "  - " ++ n))
         ++ (if sfi.isEmpty then [] else "\nFiles:" :: sfi.map (fun n => "  - " ++ n)))
      ∧ sf.Perm (statusFolders fsC5 false)
      ∧ List.Sorted (fun a b => strLe a b = true) sf
      ∧ sfi.Perm (statusFiles fsC5 false)
      ∧ List.Sorted (fun a b => strLe a b = true) sfi
      ∧ (false = false →
          ∀ n ∈ statusFolders fsC5 false ++ statusFiles fsC5 false,
            startsWithDot n = false) :=
  show_status_partitions_and_sorts fsC5 false

theorem string_append_cancel_right (a b c : String) (h : a ++ c = b ++ c) : a = b := by
  have hd : a.data ++ c.data = b.data ++ c.data := congrArg String.data h
  have := List.append_cancel_right hd
  show String.mk a.data = String.mk b.data
  rw [this]

theorem processOne_ok_shapes (env : Env) (s : LoopState) (c f : String) (s' : LoopState)
    (h : processOne env s c f = .ok s') :
    (s.fs.top.lookup f = none
       ∧ s' = { s with skipped := s.skipped ++ [f ++ " (not found)"] })
    ∨ (∃ fs1 m, (s.fs.top.lookup f).isNone = false
       ∧ s.fs.makedirs c = .ok fs1
       ∧ env.moveFail f = some m
       ∧ s' = { s with fs := fs1, skipped := s.skipped ++ [f ++ " (" ++ m ++ ")"] })
    ∨ (∃ fs1, (s.fs.top.lookup f).isNone = false
       ∧ s.fs.makedirs c = .ok fs1
       ∧ env.moveFail f = none
       ∧ s' = ⟨(fs1.moveOut f).addToFolder c
                 (if fs1.folderContains c f then tsRename env.clock f else f),
               setdefaultAppend s.moved c f, s.skipped⟩) := by
  unfold processOne at h
  split at h
  next hn =>
    exact .inl ⟨Option.isNone_iff_eq_none.mp hn, (Except.ok.inj h).symm⟩
  next hn =>
    split at h
    next => exact absurd h (by simp)
    next fs1 heq =>
      cases hmv : env.moveFail f with
      | some m =>
        rw [hmv] at h
        exact .inr (.inl ⟨fs1, m, by simp only [Bool.not_eq_true] at hn; exact hn,
          heq, rfl, (Except.ok.inj h).symm⟩)
      | none =>
        rw [hmv] at h
        exact .inr (.inr ⟨fs1, by simp only [Bool.not_eq_true] at hn; exact hn,
          heq, rfl, (Except.ok.inj h).symm⟩)

theorem moveLoop_skipped_extends (env : Env) (items : List (String × String))
    (s s' : LoopState) (h : moveLoop env items s = .ok s') :
    ∃ t, s'.skipped = s.skipped ++ t := by
  induction items generalizing s with
  | nil =>
    rw [moveLoop] at h
    exact ⟨[], by rw [← Except.ok.inj h, List.append_nil]⟩
  | cons p rest ih =>
    obtain ⟨c, f⟩ := p
    rw [moveLoop] at h
    cases hp : processOne env s c f with
    | error e => rw [hp] at h; exact absurd h (by simp)
    | ok s1 =>
      rw [hp] at h
      obtain ⟨t1, ht1⟩ := ih s1 h
      rcases processOne_ok_shapes env s c f s1 hp with
        ⟨_, hs⟩ | ⟨fs1, m, _, _, _, hs⟩ | ⟨fs1, _, _, _, hs⟩
      · exact ⟨(f ++ " (not found)") :: t1, by
          rw [ht1, hs]
          simp⟩
      · exact ⟨(f ++ " (" ++ m ++ ")") :: t1, by
          rw [ht1, hs]
          simp⟩
      · exact ⟨t1, by rw [ht1, hs]⟩

theorem eraseEntry_sublist (l : List (String × Bool)) (n : String) :
    (eraseEntry l n).Sublist l := by
  induction l with
  | nil => exact List.Sublist.refl []
  | cons p rest ih =>
    by_cases hp : p.1 = n
    · rw [eraseEntry, if_pos hp]
      exact List.sublist_cons_self p rest
    · rw [eraseEntry, if_neg hp]
      exact ih.cons₂ p

theorem eraseEntry_nodup (l : List (String × Bool)) (n : String)
    (h : (l.map Prod.fst).Nodup) : ((eraseEntry l n).map Prod.fst).Nodup :=
  h.sublist ((eraseEntry_sublist l n).map Prod.fst)

theorem lookup_ne_none_of_mem {β : Type} (l : List (String × β)) (p : String × β)
    (h : p ∈ l) : l.lookup p.1 ≠ none := by
  induction l with
  | nil => exact absurd h (List.not_mem_nil p)
  | cons q rest ih =>
    rw [lookup_cons]
    rcases List.mem_cons.mp h with rfl | hmem
    · rw [if_pos rfl]
      simp
    · by_cases hq : p.1 = q.1
      · rw [if_pos hq]
        simp
      · rw [if_neg hq]
        exact ih hmem

theorem mem_topFileNames_iff (fs : FS) (n : String) :
    n ∈ topFileNames fs ↔ (n, false) ∈ fs.top ∧ startsWithDot n = false := by
  unfold topFileNames
  constructor
  · intro h
    rcases List.mem_map.mp h with ⟨p, hp, rfl⟩
    rcases List.mem_filter.mp hp with ⟨hmem, hq⟩
    simp only [Bool.and_eq_true, Bool.not_eq_true'] at hq
    obtain ⟨h1, h2⟩ := hq
    refine ⟨?_, h1⟩
    have hpe : p = (p.1, false) := by
      rw [← h2]
    rw [← hpe]
    exact hmem
  · rintro ⟨hmem, hdot⟩
    exact List.mem_map.mpr ⟨(n, false), List.mem_filter.mpr ⟨hmem, by simp [hdot]⟩, rfl⟩

theorem moveLoop_clean_removes (env : Env) (items : List (String × String))
    (s s' : LoopState)
    (h : moveLoop env items s = .ok s')
    (hsk : s'.skipped = s.skipped)
    (hnod : (s.fs.top.map Prod.fst).Nodup) :
    ∀ n ∈ topFileNames s'.fs, n ∈ topFileNames s.fs ∧ ∀ p ∈ items, p.2 ≠ n := by
  induction items generalizing s with
  | nil =>
    rw [moveLoop] at h
    have hss : s = s' := Except.ok.inj h
    subst hss
    intro n hn
    exact ⟨hn, fun p hp => absurd hp (List.not_mem_nil p)⟩
  | cons q rest ih =>
    obtain ⟨c, f⟩ := q
    rw [moveLoop] at h
    cases hp : processOne env s c f with
    | error e => rw [hp] at h; exact absurd h (by simp)
    | ok s1 =>
      rw [hp] at h
      obtain ⟨t, ht⟩ := moveLoop_skipped_extends env rest s1 s' h
      rcases processOne_ok_shapes env s c f s1 hp with
        ⟨_, hs⟩ | ⟨fs1, m, _, _, _, hs⟩ | ⟨fs1, _, hmk, hmv, hs⟩
      · exfalso
        have hlen : s.skipped.length =
            ((s.skipped ++ [f ++ " (not found)"]) ++ t).length := by
          conv_lhs => rw [← hsk]
          rw [ht, hs]
        simp only [List.length_append, List.length_cons, List.length_nil] at hlen
        omega
      · exfalso
        have hlen : s.skipped.length =
            ((s.skipped ++ [f ++ " (" ++ m ++ ")"]) ++ t).length := by
          conv_lhs => rw [← hsk]
          rw [ht, hs]
        simp only [List.length_append, List.length_cons, List.length_nil] at hlen
        omega
      · have hs1fs : s1.fs.top = eraseEntry fs1.top f := by
          rw [hs]
          rfl
        have hs1sk : s1.skipped = s.skipped := by rw [hs]
        have hnodfs1 : (fs1.top.map Prod.fst).Nodup :=
          makedirs_top_nodup s.fs c fs1 hmk hnod
        have hnod1 : (s1.fs.top.map Prod.fst).Nodup := by
          rw [hs1fs]
          exact eraseEntry_nodup _ _ hnodfs1
        have hsk1 : s'.skipped = s1.skipped := by rw [hs1sk, hsk]
        intro n hn
        obtain ⟨hn1, hrest⟩ := ih s1 h hsk1 hnod1 n hn
        obtain ⟨hmem1, hdot⟩ := (mem_topFileNames_iff s1.fs n).mp hn1
        rw [hs1fs] at hmem1
        have hnf : n ≠ f := by
          intro hnf
          subst hnf
          exact lookup_ne_none_of_mem _ (n, false) hmem1
            (lookup_eraseEntry_self fs1.top n hnodfs1)
        have hmemfs1 : (n, false) ∈ fs1.top :=
          (eraseEntry_sublist fs1.top f).subset hmem1
        have hmemfs : (n, false) ∈ s.fs.top := by
          rcases makedirs_ok_cases s.fs c fs1 hmk with ⟨_, hfs1⟩ | ⟨_, hfs1⟩
          · rw [hfs1] at hmemfs1
            exact hmemfs1
          · rw [hfs1] at hmemfs1
            rcases List.mem_append.mp hmemfs1 with hm | hm
            · exact hm
            · simp at hm
        refine ⟨(mem_topFileNames_iff s.fs n).mpr ⟨hmemfs, hdot⟩, ?_⟩
        intro p hpmem
        rcases List.mem_cons.mp hpmem with rfl | hpm
        · exact fun he => hnf he.symm
        · exact hrest p hpm

/-- C8: when a run of organize succeeds with an empty skipped list and the
plan covers every enumerated file, every desktop-root file has been moved
away, so an immediately following run finds no files and returns the
`no files to organize` message without touching the filesystem. -/
theorem organize_idempotent_clean_run (env env2 : Env) (fs : FS) (s' : LoopState)
    (hnod : (fs.top.map Prod.fst).Nodup)
    (hne : (topFileNames fs).isEmpty = false)
    (hrun : moveLoop env (pairsOf (env.plan (topFileNames fs))) ⟨fs, [], []⟩ = .ok s')
    (hnoskip : s'.skipped = [])
    (hcover : ∀ n ∈ topFileNames fs,
        ∃ c, (c, n) ∈ pairsOf (env.plan (topFileNames fs))) :
    organize env fs false =
      (s'.fs, .msg (String.intercalate "\n" (summaryLines s'.moved s'.skipped)))
    ∧ topFileNames s'.fs = []
    ∧ organize env2 s'.fs false =
        (s'.fs, .msg "No files to organize on the desktop.") := by
  have hempty : topFileNames s'.fs = [] := by
    have hmain := moveLoop_clean_removes env _ ⟨fs, [], []⟩ s' hrun hnoskip hnod
    rw [List.eq_nil_iff_forall_not_mem]
    intro n hn
    obtain ⟨hmem, hnot⟩ := hmain n hn
    obtain ⟨c, hc⟩ := hcover n hmem
    exact hnot (c, n) hc rfl
  refine ⟨?_, hempty, ?_⟩
  · simp [organize, hne, hrun]
  · simp [organize, hempty]

/-- Witness for C8: one file, a covering plan, a clean first run. -/
theorem organize_idempotent_clean_run_witness :
    organize envC6 fsC3 false =
      ((⟨⟨[("Docs", true)], [("Docs", ["n.txt"])]⟩,
          [("Docs", ["n.txt"])], []⟩ : LoopState).fs,
       .msg (String.intercalate "\n"
          (summaryLines
            (⟨⟨[("Docs", true)], [("Docs", ["n.txt"])]⟩,
                [("Docs", ["n.txt"])], []⟩ : LoopState).moved
            (⟨⟨[("Docs", true)], [("Docs", ["n.txt"])]⟩,
                [("Docs", ["n.txt"])], []⟩ : LoopState).skipped)))
    ∧ topFileNames (⟨⟨[("Docs", true)], [("Docs", ["n.txt"])]⟩,
          [("Docs", ["n.txt"])], []⟩ : LoopState).fs = []
    ∧ organize envC6 (⟨⟨[("Docs", true)], [("Docs", ["n.txt"])]⟩,
          [("Docs", ["n.txt"])], []⟩ : LoopState).fs false =
        ((⟨⟨[("Docs", true)], [("Docs", ["n.txt"])]⟩,
            [("Docs", ["n.txt"])], []⟩ : LoopState).fs,
         .msg "No files to organize on the desktop.") :=
  organize_idempotent_clean_run envC6 envC6 fsC3
    ⟨⟨[("Docs", true)], [("Docs", ["n.txt"])]⟩, [("Docs", ["n.txt"])], []⟩
    (by decide) (by rfl) (by rfl) (by rfl)
    (by
      intro n hn
      have hn' : n = "n.txt" := by
        have : topFileNames fsC3 = ["n.txt"] := by rfl
        rw [this] at hn
        simpa using hn
      subst hn'
      exact ⟨"Docs", by decide⟩)

theorem setdefaultAppend_countsum (m : List (String × List String)) (k v f : String) :
    ((setdefaultAppend m k v).map (fun p => p.2.count f)).sum =
      (m.map (fun p => p.2.count f)).sum + (if v = f then 1 else 0) := by
  induction m with
  | nil =>
    show ([(k, [v])].map (fun p => p.2.count f)).sum = 0 + (if v = f then 1 else 0)
    by_cases h : v = f <;> simp [h, List.count_cons]
  | cons p rest ih =>
    have hone : ([v].count f) = (if v = f then 1 else 0) := by
      by_cases h : v = f
      · simp [h]
      · rw [if_neg h]
        exact List.count_eq_zero.mpr (by simp; exact fun hc => h hc.symm)
    by_cases hp : p.1 = k
    · rw [setdefaultAppend, if_pos hp, List.map_cons, List.sum_cons, List.map_cons,
        List.sum_cons]
      show (p.2 ++ [v]).count f + _ = _
      rw [List.count_append, hone]
      omega
    · rw [setdefaultAppend, if_neg hp, List.map_cons, List.sum_cons, List.map_cons,
        List.sum_cons, ih]
      omega

theorem setdefaultAppend_mem_mono (m : List (String × List String)) (k v k2 x : String)
    (hmem : ∃ l, (k2, l) ∈ m ∧ x ∈ l) :
    ∃ l', (k2, l') ∈ setdefaultAppend m k v ∧ x ∈ l' := by
  obtain ⟨l, hl, hx⟩ := hmem
  induction m with
  | nil => exact absurd hl (List.not_mem_nil _)
  | cons p rest ih =>
    rcases List.mem_cons.mp hl with heq | hl'
    · subst heq
      by_cases hp : k2 = k
      · refine ⟨l ++ [v], ?_, List.mem_append_left _ hx⟩
        rw [setdefaultAppend, if_pos hp]
        exact List.mem_cons_self _ _
      · refine ⟨l, ?_, hx⟩
        rw [setdefaultAppend, if_neg hp]
        exact List.mem_cons_self _ _
    · by_cases hp : p.1 = k
      · refine ⟨l, ?_, hx⟩
        rw [setdefaultAppend, if_pos hp]
        exact List.mem_cons_of_mem _ hl'
      · obtain ⟨l', h1, h2⟩ := ih hl'
        refine ⟨l', ?_, h2⟩
        rw [setdefaultAppend, if_neg hp]
        exact List.mem_cons_of_mem _ h1

theorem moveLoop_moved_mem_mono (env : Env) (items : List (String × String))
    (s s' : LoopState) (k x : String)
    (h : moveLoop env items s = .ok s')
    (hmem : ∃ l, (k, l) ∈ s.moved ∧ x ∈ l) :
    ∃ l', (k, l') ∈ s'.moved ∧ x ∈ l' := by
  induction items generalizing s with
  | nil =>
    rw [moveLoop] at h
    rw [← Except.ok.inj h]
    exact hmem
  | cons q rest ih =>
    obtain ⟨c, f⟩ := q
    rw [moveLoop] at h
    cases hp : processOne env s c f with
    | error e => rw [hp] at h; exact absurd h (by simp)
    | ok s1 =>
      rw [hp] at h
      apply ih s1 h
      rcases processOne_ok_shapes env s c f s1 hp with
        ⟨_, hs⟩ | ⟨fs1, m, _, _, _, hs⟩ | ⟨fs1, _, _, _, hs⟩
      · rw [hs]
        exact hmem
      · rw [hs]
        exact hmem
      · rw [hs]
        exact setdefaultAppend_mem_mono s.moved c f k x hmem

theorem moveLoop_append (env : Env) (l1 l2 : List (String × String)) (s : LoopState) :
    moveLoop env (l1 ++ l2) s =
      match moveLoop env l1 s with
      | .error e => .error e
      | .ok s1 => moveLoop env l2 s1 := by
  induction l1 generalizing s with
  | nil => rfl
  | cons q rest ih =>
    obtain ⟨c, f⟩ := q
    show moveLoop env ((c, f) :: (rest ++ l2)) s = _
    rw [moveLoop, moveLoop]
    cases hp : processOne env s c f with
    | error e => rfl
    | ok sm => exact ih sm

theorem lookup_eraseEntry_ne (l : List (String × Bool)) (n k : String)
    (hk : k ≠ n) : (eraseEntry l n).lookup k = l.lookup k := by
  induction l with
  | nil => rfl
  | cons p rest ih =>
    by_cases hp : p.1 = n
    · rw [eraseEntry, if_pos hp, lookup_cons, if_neg (fun hc => hk (hc.trans hp))]
    · rw [eraseEntry, if_neg hp, lookup_cons, lookup_cons]
      by_cases hkp : k = p.1
      · rw [if_pos hkp, if_pos hkp]
      · rw [if_neg hkp, if_neg hkp, ih]

theorem setdefaultAppend_mem_self (m : List (String × List String)) (k v : String) :
    ∃ l, (k, l) ∈ setdefaultAppend m k v ∧ v ∈ l := by
  induction m with
  | nil => exact ⟨[v], List.mem_singleton.mpr rfl, List.mem_singleton.mpr rfl⟩
  | cons p rest ih =>
    by_cases hp : p.1 = k
    · refine ⟨p.2 ++ [v], ?_, List.mem_append_right _ (List.mem_singleton.mpr rfl)⟩
      rw [setdefaultAppend, if_pos hp, ← hp]
      exact List.mem_cons_self _ _
    · obtain ⟨l, h1, h2⟩ := ih
      refine ⟨l, ?_, h2⟩
      rw [setdefaultAppend, if_neg hp]
      exact List.mem_cons_of_mem _ h1

theorem moveLoop_preserves_file (env : Env) (items : List (String × String))
    (s s1 : LoopState) (f : String)
    (h : moveLoop env items s = .ok s1)
    (hnof : ∀ p ∈ items, p.2 ≠ f)
    (hf : s.fs.top.lookup f = some false)
    (hnod : (s.fs.top.map Prod.fst).Nodup) :
    s1.fs.top.lookup f = some false
    ∧ (s1.fs.top.map Prod.fst).Nodup
    ∧ (s1.moved.map (fun p => p.2.count f)).sum =
        (s.moved.map (fun p => p.2.count f)).sum := by
  induction items generalizing s with
  | nil =>
    rw [moveLoop] at h
    rw [← Except.ok.inj h]
    exact ⟨hf, hnod, rfl⟩
  | cons q rest ih =>
    obtain ⟨c2, g⟩ := q
    have hgf : g ≠ f := hnof (c2, g) (List.mem_cons_self _ _)
    have hnof2 : ∀ p ∈ rest, p.2 ≠ f := fun p hp => hnof p (List.mem_cons_of_mem _ hp)
    rw [moveLoop] at h
    cases hp : processOne env s c2 g with
    | error e => rw [hp] at h; exact absurd h (by simp)
    | ok sm =>
      rw [hp] at h
      rcases processOne_ok_shapes env s c2 g sm hp with
        ⟨_, hs⟩ | ⟨fs1, m, _, hmk, _, hs⟩ | ⟨fs1, _, hmk, _, hs⟩
      · have hfm : sm.fs.top.lookup f = some false := by rw [hs]; exact hf
        have hnodm : (sm.fs.top.map Prod.fst).Nodup := by rw [hs]; exact hnod
        obtain ⟨a1, a2, a3⟩ := ih sm h hnof2 hfm hnodm
        exact ⟨a1, a2, a3.trans (by rw [hs])⟩
      · have hfm : sm.fs.top.lookup f = some false := by
          rw [hs]
          exact makedirs_lookup_some s.fs c2 f fs1 false hmk hf
        have hnodm : (sm.fs.top.map Prod.fst).Nodup := by
          rw [hs]
          exact makedirs_top_nodup s.fs c2 fs1 hmk hnod
        obtain ⟨a1, a2, a3⟩ := ih sm h hnof2 hfm hnodm
        exact ⟨a1, a2, a3.trans (by rw [hs])⟩
      · have hfm : sm.fs.top.lookup f = some false := by
          rw [hs]
          show (eraseEntry fs1.top g).lookup f = some false
          rw [lookup_eraseEntry_ne fs1.top g f (Ne.symm hgf)]
          exact makedirs_lookup_some s.fs c2 f fs1 false hmk hf
        have hnodm : (sm.fs.top.map Prod.fst).Nodup := by
          rw [hs]
          exact eraseEntry_nodup _ _ (makedirs_top_nodup s.fs c2 fs1 hmk hnod)
        obtain ⟨a1, a2, a3⟩ := ih sm h hnof2 hfm hnodm
        refine ⟨a1, a2, a3.trans ?_⟩
        rw [hs]
        show ((setdefaultAppend s.moved c2 g).map (fun p => p.2.count f)).sum = _
        rw [setdefaultAppend_countsum]
        simp [hgf]

theorem moveLoop_absent_file (env : Env) (items : List (String × String))
    (s s' : LoopState) (f : String)
    (hlook : s.fs.top.lookup f = none)
    (hcats : ∀ p ∈ items, p.1 ≠ f)
    (h : moveLoop env items s = .ok s') :
    s'.fs.top.lookup f = none
    ∧ (s'.moved.map (fun p => p.2.count f)).sum =
        (s.moved.map (fun p => p.2.count f)).sum
    ∧ s.skipped.count (f ++ " (not found)") + (items.filter (fun p => p.2 == f)).length
        ≤ s'.skipped.count (f ++ " (not found)") := by
  induction items generalizing s with
  | nil =>
    rw [moveLoop] at h
    rw [← Except.ok.inj h]
    exact ⟨hlook, rfl, by simp⟩
  | cons q rest ih =>
    obtain ⟨c2, g⟩ := q
    have hcf : c2 ≠ f := hcats (c2, g) (List.mem_cons_self _ _)
    have hcats2 : ∀ p ∈ rest, p.1 ≠ f := fun p hp => hcats p (List.mem_cons_of_mem _ hp)
    rw [moveLoop] at h
    cases hp : processOne env s c2 g with
    | error e => rw [hp] at h; exact absurd h (by simp)
    | ok sm =>
      rw [hp] at h
      rcases processOne_ok_shapes env s c2 g sm hp with
        ⟨hn2, hs⟩ | ⟨fs1, m, hne2, hmk, _, hs⟩ | ⟨fs1, hne2, hmk, _, hs⟩
      · have hfm : sm.fs.top.lookup f = none := by rw [hs]; exact hlook
        obtain ⟨a1, a2, a3⟩ := ih sm hfm hcats2 h
        refine ⟨a1, by rw [a2, hs], ?_⟩
        have hsm : sm.skipped.count (f ++ " (not found)") =
            s.skipped.count (f ++ " (not found)") + (if g = f then 1 else 0) := by
          rw [hs]
          show (s.skipped ++ [g ++ " (not found)"]).count _ = _
          rw [List.count_append]
          by_cases hgf : g = f
          · subst hgf
            simp
          · have hz : ([g ++ " (not found)"].count (f ++ " (not found)")) = 0 := by
              refine List.count_eq_zero.mpr ?_
              simp only [List.mem_singleton]
              intro hc
              exact hgf ((string_append_cancel_right f g _ hc).symm)
            rw [hz, if_neg hgf]
        rw [List.filter_cons]
        rw [hsm] at a3
        by_cases hgf : g = f
        · subst hgf
          rw [if_pos rfl] at a3
          simp only [beq_self_eq_true, if_true, List.length_cons]
          omega
        · rw [if_neg hgf] at a3
          have hbf : ((g == f) = false) := by simp [hgf]
          rw [hbf]
          simp only [Bool.false_eq_true, if_false]
          omega
      · have hgf : g ≠ f := by
          intro hq
          subst hq
          rw [hlook] at hne2
          exact absurd hne2 (by simp)
        have hfm : sm.fs.top.lookup f = none := by
          rw [hs]
          show fs1.top.lookup f = none
          exact makedirs_lookup_none s.fs c2 f fs1 hmk hlook (Ne.symm hcf)
        obtain ⟨a1, a2, a3⟩ := ih sm hfm hcats2 h
        refine ⟨a1, by rw [a2, hs], ?_⟩
        have hsm : s.skipped.count (f ++ " (not found)") ≤
            sm.skipped.count (f ++ " (not found)") := by
          rw [hs]
          show _ ≤ (s.skipped ++ [g ++ " (" ++ m ++ ")"]).count _
          rw [List.count_append]
          omega
        rw [List.filter_cons]
        have hbf : ((g == f) = false) := by simp [hgf]
        rw [hbf]
        simp only [Bool.false_eq_true, if_false]
        omega
      · have hgf : g ≠ f := by
          intro hq
          subst hq
          rw [hlook] at hne2
          exact absurd hne2 (by simp)
        have hfm : sm.fs.top.lookup f = none := by
          rw [hs]
          show (eraseEntry fs1.top g).lookup f = none
          exact lookup_eraseEntry_none _ _ _
            (makedirs_lookup_none s.fs c2 f fs1 hmk hlook (Ne.symm hcf))
        obtain ⟨a1, a2, a3⟩ := ih sm hfm hcats2 h
        refine ⟨a1, ?_, ?_⟩
        · rw [a2, hs]
          show ((setdefaultAppend s.moved c2 g).map (fun p => p.2.count f)).sum = _
          rw [setdefaultAppend_countsum]
          simp [hgf]
        · have hsm : sm.skipped = s.skipped := by rw [hs]
          rw [List.filter_cons]
          have hbf : ((g == f) = false) := by simp [hgf]
          rw [hbf]
          simp only [Bool.false_eq_true, if_false]
          rw [hsm] at a3
          exact a3

/-- C10 (amended): in any successful run whose plan assigns the file `f`
to several categories — the first occurrence may come after arbitrary
other pairs — provided `f`'s own move does not raise and no category
processed after the first occurrence bears the name `f`, the file is
moved exactly once, under the first category that processes it; each
later occurrence finds the source gone and contributes a `not found`
skip entry, so the same name ends up both in the moved-by-category
mapping and in the skipped list.  Other files' move failures are
tolerated. -/
theorem organize_duplicate_name (env : Env) (c f : String)
    (pre rest : List (String × String)) (fs : FS) (s' : LoopState)
    (hnod : (fs.top.map Prod.fst).Nodup)
    (hsrc : fs.top.lookup f = some false)
    (hmvf : env.moveFail f = none)
    (hpre : ∀ p ∈ pre, p.2 ≠ f)
    (hcats : ∀ p ∈ rest, p.1 ≠ f)
    (hrun : moveLoop env (pre ++ (c, f) :: rest) ⟨fs, [], []⟩ = .ok s') :
    (∃ l, (c, l) ∈ s'.moved ∧ f ∈ l)
    ∧ (s'.moved.map (fun p => p.2.count f)).sum = 1
    ∧ (rest.filter (fun p => p.2 == f)).length ≤
        s'.skipped.count (f ++ " (not found)")
    ∧ s'.fs.top.lookup f = none := by
  rw [moveLoop_append] at hrun
  cases hmid : moveLoop env pre ⟨fs, [], []⟩ with
  | error e => rw [hmid] at hrun; exact absurd hrun (by simp)
  | ok sMid =>
    rw [hmid] at hrun
    obtain ⟨hfMid, hnodMid, hmovMid⟩ :=
      moveLoop_preserves_file env pre ⟨fs, [], []⟩ sMid f hmid hpre hsrc hnod
    replace hrun : moveLoop env ((c, f) :: rest) sMid = .ok s' := hrun
    rw [moveLoop] at hrun
    cases hp : processOne env sMid c f with
    | error e => rw [hp] at hrun; exact absurd hrun (by simp)
    | ok s1 =>
      rw [hp] at hrun
      rcases processOne_ok_shapes env sMid c f s1 hp with
        ⟨hnone, _⟩ | ⟨fs1, m, _, _, hsome, _⟩ | ⟨fs1, _, hmk, _, hs⟩
      · rw [hfMid] at hnone
        exact absurd hnone (by simp)
      · rw [hmvf] at hsome
        exact absurd hsome (by simp)
      · have hl1 : s1.fs.top.lookup f = none := by
          rw [hs]
          show (eraseEntry fs1.top f).lookup f = none
          exact lookup_eraseEntry_self fs1.top f
            (makedirs_top_nodup sMid.fs c fs1 hmk hnodMid)
        obtain ⟨h1, h2, h3⟩ := moveLoop_absent_file env rest s1 s' f hl1 hcats hrun
        refine ⟨?_, ?_, ?_, h1⟩
        · apply moveLoop_moved_mem_mono env rest s1 s' c f hrun
          rw [hs]
          exact setdefaultAppend_mem_self sMid.moved c f
        · rw [h2, hs]
          show ((setdefaultAppend sMid.moved c f).map (fun p => p.2.count f)).sum = 1
          rw [setdefaultAppend_countsum, hmovMid]
          simp
        · omega

/-- Witness for the amended C10: `n.txt` planned under `A` and `B`, with
another file `g` processed first whose own move raises. -/
theorem organize_duplicate_name_witness :
    (∃ l, ("A", l) ∈
        (⟨⟨[("g", false), ("X", true), ("A", true)], [("A", ["n.txt"])]⟩,
          [("A", ["n.txt"])],
          ["g (boom)", "n.txt (not found)"]⟩ : LoopState).moved ∧ "n.txt" ∈ l)
    ∧ (((⟨⟨[("g", false), ("X", true), ("A", true)], [("A", ["n.txt"])]⟩,
          [("A", ["n.txt"])],
          ["g (boom)", "n.txt (not found)"]⟩ : LoopState).moved.map
            (fun p => p.2.count "n.txt")).sum = 1)
    ∧ (([("B", "n.txt")].filter (fun p => p.2 == "n.txt")).length ≤
        (⟨⟨[("g", false), ("X", true), ("A", true)], [("A", ["n.txt"])]⟩,
          [("A", ["n.txt"])],
          ["g (boom)", "n.txt (not found)"]⟩ : LoopState).skipped.count
            ("n.txt" ++ " (not found)"))
    ∧ (⟨⟨[("g", false), ("X", true), ("A", true)], [("A", ["n.txt"])]⟩,
          [("A", ["n.txt"])],
          ["g (boom)", "n.txt (not found)"]⟩ : LoopState).fs.top.lookup "n.txt" = none :=
  organize_duplicate_name envC8 "A" "n.txt" [("X", "g")] [("B", "n.txt")] fsC8
    ⟨⟨[("g", false), ("X", true), ("A", true)], [("A", ["n.txt"])]⟩,
      [("A", ["n.txt"])], ["g (boom)", "n.txt (not found)"]⟩
    (by decide) (by rfl) (by rfl) (by decide) (by decide) (by rfl)


/-- Counterexample to C10 as stated: when the plan assigns `f.txt` to the
categories `A` and `B` but also uses `f.txt` as a category name in
between, the category folder created under that name makes the source
path exist again, so the later occurrence under `B` is moved (the newly
created directory), not recorded as a `not found` skip: the run ends with
an empty skipped list and `f.txt` recorded as moved under both `A` and
`B`. -/
theorem organize_duplicate_name_counterexample :
    ∃ s' : LoopState,
      moveLoop envC7 (pairsOf (envC7.plan (topFileNames fsC7))) ⟨fsC7, [], []⟩ = .ok s'
      ∧ (s'.moved.map (fun p => p.2.count "f.txt")).sum = 2
      ∧ s'.skipped = []
      ∧ ∃ l, ("B", l) ∈ s'.moved ∧ "f.txt" ∈ l := by
  refine ⟨_, rfl, by decide, rfl, ⟨["f.txt"], by decide, by decide⟩⟩
